import Mathlib

/-!
# Verification of the figma-mcp-server core

Shallow embedding of the repository's core logic:

* `validateUri` (src, middleware/auth): parsing an opaque resource URI
  against the anchored pattern
  `^figma:\/\/\/file\/([\w-]+)(\/(\w+)(\/(.+))?)?$`
  into `{ fileKey, resourceType, resourceId }`.
* `transformFigmaNode` / `transformStyle` / `transformFill` /
  `transformColor` / `summarizeText` (src, utils/transform): the recursive
  document-normalization transform over loosely-typed JSON-like values.
* `FigmaResourceHandler.list` and `FigmaResourceHandler.watch`
  (src, handlers/figma): resource listing and the existence-check surface,
  modelled up to the upstream fetches they would issue.

JavaScript runtime values are embedded as `JSValue`, a JSON-like tree.
Numbers are modelled as `Int`: the source performs no arithmetic on any
number, it only tests `typeof x === 'number'` and passes values through,
so the only semantic fact used about numbers is their truthiness
(`0` is falsy, every other number truthy; the `NaN` corner is outside the
model).  Strings are modelled as Lean `String`, one `Char` standing for
one text unit; the source only takes lengths, prefixes and appends.
-/

/-- A JavaScript runtime value, restricted to the JSON-like shapes the
source manipulates.  Object fields are an association list in insertion
order (JS objects preserve insertion order for string keys, and the
source serializes objects, so order is observable). -/
inductive JSValue where
  | null
  | undefined
  | bool (b : Bool)
  | num (n : Int)
  | str (s : String)
  | arr (elems : List JSValue)
  | obj (fields : List (String × JSValue))

namespace JSValue

/-- JavaScript property access `v[k]` for the keys the source reads:
on an object it is association-list lookup (first binding wins, matching
JS objects where keys are unique), on every other value it yields
`undefined` (property access on primitives auto-boxes and finds none of
the keys the source uses; the source never accesses a property of
`null`/`undefined` without a guard or optional chaining). -/
def get : JSValue → String → JSValue
  | .obj fs, k => (fs.lookup k).getD .undefined
  | _, _ => .undefined

/-- JavaScript truthiness (`if (v)`).  `NaN` is outside the model; the
empty string, `0`, `null`, `undefined` and `false` are falsy, every
object and array (even empty) is truthy. -/
def truthy : JSValue → Bool
  | .null => false
  | .undefined => false
  | .bool b => b
  | .num n => n != 0
  | .str s => s ≠ ""
  | .arr _ => true
  | .obj _ => true

/-- `typeof v === 'object'` — true for objects, arrays and (a JS quirk)
`null`. -/
def isObjLike : JSValue → Bool
  | .null => true
  | .arr _ => true
  | .obj _ => true
  | _ => false

/-- `typeof v === 'string'`. -/
def isString : JSValue → Bool
  | .str _ => true
  | _ => false

/-- `typeof v === 'number'`. -/
def isNumber : JSValue → Bool
  | .num _ => true
  | _ => false

end JSValue

/-! ## URI validation (`validateUri`, middleware/auth)

The source matches the whole URI against the anchored JS regex
`^figma:\/\/\/file\/([\w-]+)(\/(\w+)(\/(.+))?)?$` and throws
`InvalidUriError` when there is no match; the thrown error is modelled
by `none`.  The embedding below replaces the backtracking regex engine
with maximal munch, which is equivalent for this particular pattern:

* group 1 `[\w-]+` cannot match `/`, and whatever follows it must either
  be the end of input or start with `/`; shortening a greedy match of
  group 1 leaves a word/hyphen character at the split point, which is
  neither `/` nor end-of-input, so only the maximal run can succeed;
* the same argument applies to group 3 `\w+`;
* group 5 `(.+)` must extend to the end of the string (shortening it
  strands characters before the anchor `$`), so it matches exactly the
  remaining text, succeeding iff that text is non-empty and free of the
  line terminators that `.` does not match. -/

/-- JS `\w`: ASCII letters, digits and underscore. -/
def isWordChar (c : Char) : Bool := c.isAlpha || c.isDigit || c = '_'

/-- JS `[\w-]`: word characters and the hyphen. -/
def isKeyChar (c : Char) : Bool := isWordChar c || c = '-'

/-- JS `.` (no `s` flag): any character except the four line
terminators. -/
def isDotChar (c : Char) : Bool :=
  !(c = '\n' || c = '\r' || c = '\u2028' || c = '\u2029')

/-- The result object of `validateUri`:
`{ fileKey: match[1], resourceType: match[3], resourceId: match[5] }`,
with the unmatched optional groups `undefined` (here `none`). -/
structure ValidatedUri where
  fileKey : String
  resourceType : Option String
  resourceId : Option String
deriving DecidableEq, Repr

/-- Strip a literal prefix from a character list, returning the
remainder (the anchored literal part `figma:///file/` of the regex). -/
def dropLit : List Char → List Char → Option (List Char)
  | [], cs => some cs
  | _ :: _, [] => none
  | p :: ps, c :: cs => if c = p then dropLit ps cs else none

/-- Parse the part of the URI after `figma:///file/`:
`([\w-]+)(\/(\w+)(\/(.+))?)?$` by maximal munch (see the equivalence
argument above). -/
def parseRest (rest : List Char) : Option ValidatedUri :=
  let key := rest.takeWhile isKeyChar
  let tail := rest.dropWhile isKeyChar
  if key.isEmpty then none
  else
    match tail with
    | [] => some ⟨key.asString, none, none⟩
    | c :: t2 =>
      if c = '/' then
        let cat := t2.takeWhile isWordChar
        let t3 := t2.dropWhile isWordChar
        if cat.isEmpty then none
        else
          match t3 with
          | [] => some ⟨key.asString, some cat.asString, none⟩
          | c2 :: sub =>
            if c2 = '/' then
              if sub.isEmpty then none
              else if sub.all isDotChar then
                some ⟨key.asString, some cat.asString, some sub.asString⟩
              else none
            else none
      else none

/-- `validateUri` — `none` models the thrown `InvalidUriError`. -/
def validateUri (uri : String) : Option ValidatedUri :=
  match dropLit "figma:///file/".toList uri.toList with
  | some rest => parseRest rest
  | none => none

/-- Re-assemble the components returned by `validateUri` into a URI
string, using the same separators the grammar uses. -/
def buildUri (r : ValidatedUri) : String :=
  "figma:///file/" ++ r.fileKey ++
    (match r.resourceType with
     | some cat =>
       "/" ++ cat ++ (match r.resourceId with | some sub => "/" ++ sub | none => "")
     | none => "")

/-- Modelled from the spec: the address grammar
`scheme:///file/<containerKey>[/<category>[/<subId>]]` of §4.1/§6,
stated independently of `validateUri` — `containerKey` is one or more
word/hyphen characters, `category` one or more word characters, and
`subId` is any remaining text.  Used to compare the spec's grammar
with the code's accept/reject behavior. -/
def SpecGrammar (uri : String) : Prop :=
  ∃ key : String, key ≠ "" ∧ (∀ c ∈ key.toList, isKeyChar c) ∧
    (uri = "figma:///file/" ++ key ∨
     ∃ cat : String, cat ≠ "" ∧ (∀ c ∈ cat.toList, isWordChar c) ∧
       (uri = "figma:///file/" ++ key ++ "/" ++ cat ∨
        ∃ sub : String, uri = "figma:///file/" ++ key ++ "/" ++ cat ++ "/" ++ sub))

/-! ## Resource listing and the watch surface (handlers/figma) -/

/-- A file record as returned by the upstream `/me/files` listing, with
the fields `list` reads. -/
structure FileInfo where
  key : String
  name : String
  lastModified : String
  thumbnailUrl : String
deriving DecidableEq, Repr

/-- A listed resource (the `FigmaResource` shape built by `list`).
Metadata is the literal key/value object built by the source. -/
structure FigmaResource where
  uri : String
  type : String
  name : String
  metadata : List (String × String)
deriving DecidableEq, Repr

/-- The `subResources` array in `list` — note the source lists six
categories; `nodes` is not among them. -/
def subResourceTypes : List String :=
  ["images", "comments", "versions", "components", "styles", "variables"]

/-- The main (whole-document) entry `list` pushes for a file. -/
def mainFileResource (f : FileInfo) : FigmaResource :=
  { uri := "figma:///file/" ++ f.key
    type := "file"
    name := f.name
    metadata := [("lastModified", f.lastModified), ("thumbnailUrl", f.thumbnailUrl)] }

/-- The per-category entry `list` pushes for a file. -/
def subFileResource (f : FileInfo) (t : String) : FigmaResource :=
  { uri := "figma:///file/" ++ f.key ++ "/" ++ t
    type := t
    name := f.name ++ " - " ++ t
    metadata := [("fileKey", f.key), ("fileName", f.name)] }

/-- `FigmaResourceHandler.list`, as a function of the upstream file
listing: for each file, the main entry followed by one entry per
category in `subResourceTypes`, in source order. -/
def listResources (files : List FileInfo) : List FigmaResource :=
  files.flatMap fun f => mainFileResource f :: subResourceTypes.map (subFileResource f)

/-- The observable effect of `FigmaResourceHandler.watch`: either a
single fetch of `/files/{fileKey}` or nothing.  The method performs no
other action and stores no state (no persistent subscription). -/
inductive WatchAction where
  | fetchFile (fileKey : String)
  | noop
deriving DecidableEq, Repr

/-- `FigmaResourceHandler.watch`: validate the URI (propagating the
validation error as `none`), then fetch the file iff the parsed
`resourceType` is the literal string `'file'`. -/
def watch (uri : String) : Option WatchAction :=
  match validateUri uri with
  | none => none
  | some r =>
    if r.resourceType = some "file" then some (.fetchFile r.fileKey)
    else some .noop

/-! ## Document normalization (utils/transform)

The transform is the source's recursion, split into the non-recursive
field extraction (`nodeFields`, covering `id`/`name`/`type`, the
bounding box, the style and the summarized text, in the source's
assignment order) and a fuel-indexed recursion over `children`
(`transformCore`).  The fuel only serves to make the recursion
structural — `transformFigmaNode` supplies `sizeOf node`, which is
always sufficient, so the fuel-exhaustion branch is unreachable from
`transformFigmaNode` (proved below as `transformCore_congr`). -/

namespace JSValue

/-- JS strict equality of a value against a string literal
(`v === 'lit'`). -/
def eqStr (v : JSValue) (s : String) : Bool :=
  match v with
  | .str t => t = s
  | _ => false

end JSValue

/-- `transformColor`: accepts any truthy value of `typeof 'object'`
whose `r`, `g`, `b` and `a` properties are all numbers, rebuilding the
four-field color object; otherwise `undefined` (`none`). -/
def transformColor (color : JSValue) : Option JSValue :=
  if color.truthy && color.isObjLike then
    match color.get "r", color.get "g", color.get "b", color.get "a" with
    | .num r, .num g, .num b, .num a =>
      some (.obj [("r", .num r), ("g", .num g), ("b", .num b), ("a", .num a)])
    | _, _, _, _ => none
  else none

/-- `transformFill`: requires a truthy object with a string `type`;
the `color` sub-field is attached only when `fill.color` is truthy and
`transformColor` accepts it. -/
def transformFill (fill : JSValue) : Option JSValue :=
  if fill.truthy && fill.isObjLike && (fill.get "type").isString then
    if (fill.get "color").truthy then
      match transformColor (fill.get "color") with
      | some c => some (.obj [("type", fill.get "type"), ("color", c)])
      | none => some (.obj [("type", fill.get "type")])
    else some (.obj [("type", fill.get "type")])
  else none

/-- `summarizeText` with the default `maxLength = 100`:
`text.substring(0, 100) + "..."` when the length exceeds 100,
the text unchanged otherwise. -/
def summarizeText (text : String) : String :=
  if text.length > 100 then (text.toList.take 100).asString ++ "..." else text

/-- The fields of the style object built by `transformStyle`, in the
source's assignment order.  The `lineHeight` branch mirrors
`typeof style.lineHeight === 'number'` first, then
`style.lineHeight?.value && typeof style.lineHeight.value === 'number'`
(the optional chain on a `null`/`undefined` line height yields
`undefined`, which `JSValue.get` also returns, and the truthiness test
means a numeric `value` of `0` is rejected). -/
def condPart (c : Bool) (k : String) (w : JSValue) : List (String × JSValue) :=
  if c then [(k, w)] else []

/-- The `lineHeight` assignment of `transformStyle`: the bare-number
branch first, then the object-with-`value` branch guarded by
truthiness. -/
def lineHeightPart (style : JSValue) : List (String × JSValue) :=
  if (style.get "lineHeight").isNumber then [("lineHeight", style.get "lineHeight")]
  else if ((style.get "lineHeight").get "value").truthy
          && ((style.get "lineHeight").get "value").isNumber then
    [("lineHeight", (style.get "lineHeight").get "value")]
  else []

/-- The `fills` assignment of `transformStyle`: present only when
`style.fills` is an array and at least one descriptor survives
`transformFill`. -/
def fillsPart (style : JSValue) : List (String × JSValue) :=
  match style.get "fills" with
  | .arr fills =>
    if (fills.filterMap transformFill).isEmpty then []
    else [("fills", .arr (fills.filterMap transformFill))]
  | _ => []

def styleFields (style : JSValue) : List (String × JSValue) :=
  condPart (style.get "fontFamily").isString "fontFamily" (style.get "fontFamily")
  ++ condPart (style.get "fontSize").isNumber "fontSize" (style.get "fontSize")
  ++ condPart (style.get "fontWeight").isNumber "fontWeight" (style.get "fontWeight")
  ++ condPart (style.get "letterSpacing").isNumber "letterSpacing" (style.get "letterSpacing")
  ++ condPart (style.get "textAlignHorizontal").isString "textAlignHorizontal"
      (style.get "textAlignHorizontal")
  ++ lineHeightPart style
  ++ fillsPart style

/-- `transformStyle`: guard `!style || typeof style !== 'object'`, then
the field extraction; an empty result collapses to `undefined`
(`Object.keys(result).length > 0` check). -/
def transformStyle (style : JSValue) : Option JSValue :=
  if style.truthy && style.isObjLike then
    if (styleFields style).isEmpty then none else some (.obj (styleFields style))
  else none

/-- The `absoluteBoundingBox` part of `transformFigmaNode`: attached
only when `node.absoluteBoundingBox` is truthy and all four of
`x`, `y`, `width`, `height` are numbers. -/
def bboxFields (bb : JSValue) : List (String × JSValue) :=
  if bb.truthy then
    match bb.get "x", bb.get "y", bb.get "width", bb.get "height" with
    | .num x, .num y, .num w, .num h =>
      [("absoluteBoundingBox",
        .obj [("x", .num x), ("y", .num y), ("width", .num w), ("height", .num h)])]
    | _, _, _, _ => []
  else []

/-- The `style` part of `transformFigmaNode`: attached only when
`transformStyle` produced a non-empty result. -/
def stylePart (node : JSValue) : List (String × JSValue) :=
  match transformStyle (node.get "style") with
  | some s => [("style", s)]
  | none => []

/-- The `characters` part of `transformFigmaNode`: attached only for
`node.type === 'TEXT'` with a string `characters`, holding the
summarized text. -/
def charsPart (node : JSValue) : List (String × JSValue) :=
  if (node.get "type").eqStr "TEXT" then
    match node.get "characters" with
    | .str s => [("characters", .str (summarizeText s))]
    | _ => []
  else []

/-- The non-recursive fields of the object built by
`transformFigmaNode`, in the source's assignment order: `id`, `name`,
`type` unconditionally, then the bounding box, the style, and the
summarized text. -/
def nodeFields (node : JSValue) : List (String × JSValue) :=
  [("id", node.get "id"), ("name", node.get "name"), ("type", node.get "type")]
  ++ bboxFields (node.get "absoluteBoundingBox")
  ++ stylePart node
  ++ charsPart node

/-! Node count of a `JSValue` tree, used as recursion fuel for the
transform; it is defined mutually with the two list measures so the
recursion is structural and computable. -/
mutual
/-- Node count of a `JSValue` tree. -/
def jsSize : JSValue → Nat
  | .null => 1
  | .undefined => 1
  | .bool _ => 1
  | .num _ => 1
  | .str _ => 1
  | .arr es => 1 + jsSizeList es
  | .obj fs => 1 + jsSizeFields fs
termination_by structural v => v

/-- Total `jsSize` of a list of values. -/
def jsSizeList : List JSValue → Nat
  | [] => 0
  | v :: vs => jsSize v + jsSizeList vs
termination_by structural l => l

/-- Total `jsSize` of the values of a field list. -/
def jsSizeFields : List (String × JSValue) → Nat
  | [] => 0
  | (_, v) :: fs => jsSize v + jsSizeFields fs
termination_by structural l => l
end

/-- `children.map(f)` where a thrown error in any child propagates
(`none`); order and cardinality are preserved. -/
def optMap (f : JSValue → Option JSValue) : List JSValue → Option (List JSValue)
  | [] => some []
  | v :: vs =>
    match f v, optMap f vs with
    | some w, some ws => some (w :: ws)
    | _, _ => none

/-- Fuel-indexed body of `transformFigmaNode`.  A `null` or `undefined`
node throws in the source (`node.id` on it raises `TypeError`),
modelled as `none`; any other value yields the object of `nodeFields`
plus, when `Array.isArray(node.children)`, the recursively transformed
children in input order. -/
def transformCore : Nat → JSValue → Option JSValue
  | 0, _ => none
  | _ + 1, .null => none
  | _ + 1, .undefined => none
  | n + 1, node =>
    match node.get "children" with
    | .arr cs =>
      match optMap (transformCore n) cs with
      | some ts => some (.obj (nodeFields node ++ [("children", .arr ts)]))
      | none => none
    | _ => some (.obj (nodeFields node))

/-- `transformFigmaNode`: the fuel `jsSize node` always suffices
(`transformCore_congr` below), so this is exactly the source's
unbounded recursion. -/
def transformFigmaNode (node : JSValue) : Option JSValue :=
  transformCore (jsSize node) node

/-! # Supporting lemmas — URI parsing -/

theorem dropLit_self_append (lit cs : List Char) : dropLit lit (lit ++ cs) = some cs := by
  induction lit with
  | nil => rfl
  | cons p ps ih => simp [dropLit, ih]

theorem dropLit_eq_some {lit cs rest : List Char} (h : dropLit lit cs = some rest) :
    cs = lit ++ rest := by
  induction lit generalizing cs with
  | nil =>
    simp only [dropLit, Option.some.injEq] at h
    simp [h]
  | cons p ps ih =>
    cases cs with
    | nil => simp [dropLit] at h
    | cons c cs2 =>
      by_cases hc : c = p
      · subst hc
        simp only [dropLit, if_pos rfl] at h
        simp [ih h]
      · simp [dropLit, hc] at h

theorem split_takeWhile_dropWhile {p : Char → Bool} {a b : List Char}
    (h1 : ∀ c ∈ a, p c) (h2 : ∀ c, b.head? = some c → p c = false) :
    (a ++ b).takeWhile p = a ∧ (a ++ b).dropWhile p = b := by
  induction a with
  | nil =>
    cases b with
    | nil => simp
    | cons c t =>
      have hc := h2 c rfl
      simp [List.takeWhile_cons, List.dropWhile_cons, hc]
  | cons x t ih =>
    have hx := h1 x (List.mem_cons_self x t)
    have iht := ih fun c hc => h1 c (List.mem_cons_of_mem x hc)
    simp [List.takeWhile_cons, List.dropWhile_cons, hx, iht.1, iht.2]

theorem asString_ne_empty {l : List Char} (h : l ≠ []) : l.asString ≠ "" :=
  fun he => h (congrArg String.toList he)

theorem parseRest_key_only {keyL : List Char} (h1 : keyL ≠ [])
    (h2 : ∀ c ∈ keyL, isKeyChar c) :
    parseRest keyL = some ⟨keyL.asString, none, none⟩ := by
  have hsp := split_takeWhile_dropWhile (b := ([] : List Char)) h2 (by intro c hc; simp at hc)
  rw [List.append_nil] at hsp
  simp [parseRest, hsp.1, hsp.2, List.isEmpty_iff, h1]

theorem parseRest_key_cat {keyL catL : List Char} (hk1 : keyL ≠ [])
    (hk2 : ∀ c ∈ keyL, isKeyChar c) (hc1 : catL ≠ []) (hc2 : ∀ c ∈ catL, isWordChar c) :
    parseRest (keyL ++ '/' :: catL) = some ⟨keyL.asString, some catL.asString, none⟩ := by
  have hsp := split_takeWhile_dropWhile (b := '/' :: catL) hk2
    (by intro c hc; simp at hc; subst hc; decide)
  have hsp2 := split_takeWhile_dropWhile (b := ([] : List Char)) hc2 (by intro c hc; simp at hc)
  rw [List.append_nil] at hsp2
  simp [parseRest, hsp.1, hsp.2, hsp2.1, hsp2.2, List.isEmpty_iff, hk1, hc1]

theorem parseRest_key_cat_sub {keyL catL subL : List Char} (hk1 : keyL ≠ [])
    (hk2 : ∀ c ∈ keyL, isKeyChar c) (hc1 : catL ≠ []) (hc2 : ∀ c ∈ catL, isWordChar c)
    (hs1 : subL ≠ []) (hs2 : ∀ c ∈ subL, isDotChar c) :
    parseRest (keyL ++ '/' :: (catL ++ '/' :: subL)) =
      some ⟨keyL.asString, some catL.asString, some subL.asString⟩ := by
  have hsp := split_takeWhile_dropWhile (b := '/' :: (catL ++ '/' :: subL)) hk2
    (by intro c hc; simp at hc; subst hc; decide)
  have hsp2 := split_takeWhile_dropWhile (b := '/' :: subL) hc2
    (by intro c hc; simp at hc; subst hc; decide)
  simp [parseRest, hsp.1, hsp.2, hsp2.1, hsp2.2, List.isEmpty_iff, hk1, hc1, hs1,
    List.all_eq_true.mpr hs2]

theorem parseRest_cat_trailing_slash {keyL catL : List Char} (hk1 : keyL ≠ [])
    (hk2 : ∀ c ∈ keyL, isKeyChar c) (hc1 : catL ≠ []) (hc2 : ∀ c ∈ catL, isWordChar c) :
    parseRest (keyL ++ '/' :: (catL ++ ['/'])) = none := by
  have hsp := split_takeWhile_dropWhile (b := '/' :: (catL ++ ['/'])) hk2
    (by intro c hc; simp at hc; subst hc; decide)
  have hsp2 := split_takeWhile_dropWhile (b := ['/']) hc2
    (by intro c hc; simp at hc; subst hc; decide)
  simp [parseRest, hsp.1, hsp.2, hsp2.1, hsp2.2, List.isEmpty_iff, hk1, hc1]

theorem parseRest_some {rest : List Char} {r : ValidatedUri} (h : parseRest rest = some r) :
    ∃ keyL, keyL ≠ [] ∧ (∀ c ∈ keyL, isKeyChar c) ∧ r.fileKey = keyL.asString ∧
      ((r.resourceType = none ∧ r.resourceId = none ∧ rest = keyL) ∨
       ∃ catL, catL ≠ [] ∧ (∀ c ∈ catL, isWordChar c) ∧ r.resourceType = some catL.asString ∧
         ((r.resourceId = none ∧ rest = keyL ++ '/' :: catL) ∨
          ∃ subL, subL ≠ [] ∧ (∀ c ∈ subL, isDotChar c) ∧ r.resourceId = some subL.asString ∧
            rest = keyL ++ '/' :: (catL ++ '/' :: subL))) := by
  have hkeyP : ∀ c ∈ rest.takeWhile isKeyChar, isKeyChar c := fun c hc => List.mem_takeWhile_imp hc
  have hsplit : rest.takeWhile isKeyChar ++ rest.dropWhile isKeyChar = rest :=
    List.takeWhile_append_dropWhile isKeyChar rest
  simp only [parseRest] at h
  split at h
  · simp at h
  next hke =>
    have hkey_ne : rest.takeWhile isKeyChar ≠ [] := by
      simpa [List.isEmpty_iff] using hke
    split at h
    next htail =>
      cases h
      refine ⟨_, hkey_ne, hkeyP, rfl, Or.inl ⟨rfl, rfl, ?_⟩⟩
      conv_lhs => rw [← hsplit]
      rw [htail, List.append_nil]
    next c t2 htail =>
      split at h
      next hc =>
        subst hc
        have hcatP : ∀ x ∈ t2.takeWhile isWordChar, isWordChar x :=
          fun x hx => List.mem_takeWhile_imp hx
        have hsplit2 : t2.takeWhile isWordChar ++ t2.dropWhile isWordChar = t2 :=
          List.takeWhile_append_dropWhile isWordChar t2
        split at h
        · simp at h
        next hce =>
          have hcat_ne : t2.takeWhile isWordChar ≠ [] := by
            simpa [List.isEmpty_iff] using hce
          split at h
          next ht3 =>
            cases h
            refine ⟨_, hkey_ne, hkeyP, rfl,
              Or.inr ⟨_, hcat_ne, hcatP, rfl, Or.inl ⟨rfl, ?_⟩⟩⟩
            conv_lhs => rw [← hsplit]
            rw [htail]
            congr 1
            congr 1
            conv_lhs => rw [← hsplit2]
            rw [ht3, List.append_nil]
          next c2 sub ht3 =>
            split at h
            next hc2 =>
              subst hc2
              split at h
              · simp at h
              next hse =>
                split at h
                next hall =>
                  cases h
                  have hsub_ne : sub ≠ [] := by
                    simpa [List.isEmpty_iff] using hse
                  refine ⟨_, hkey_ne, hkeyP, rfl,
                    Or.inr ⟨_, hcat_ne, hcatP, rfl,
                      Or.inr ⟨sub, hsub_ne, fun c hc => List.all_eq_true.mp hall c hc, rfl, ?_⟩⟩⟩
                  conv_lhs => rw [← hsplit]
                  rw [htail]
                  congr 1
                  congr 1
                  conv_lhs => rw [← hsplit2]
                  rw [ht3]
                next => simp at h
            next => simp at h
      next => simp at h

@[simp] theorem toList_append (s t : String) : (s ++ t).toList = s.toList ++ t.toList := rfl

@[simp] theorem toList_asString (l : List Char) : (l.asString).toList = l := rfl

@[simp] theorem toList_slash : ("/" : String).toList = ['/'] := rfl

@[simp] theorem data_append (s t : String) : (s ++ t).data = s.data ++ t.data := rfl

@[simp] theorem data_asString (l : List Char) : (l.asString).data = l := rfl

@[simp] theorem data_slash : ("/" : String).data = ['/'] := rfl

theorem string_eq_of_toList_eq {s t : String} (h : s.toList = t.toList) : s = t :=
  String.ext h

theorem toList_ne_nil {s : String} (h : s ≠ "") : s.toList ≠ [] :=
  fun he => h (String.ext he)

theorem validateUri_some_inv {uri : String} {r : ValidatedUri} (h : validateUri uri = some r) :
    r.fileKey ≠ "" ∧ (∀ c ∈ r.fileKey.toList, isKeyChar c) ∧
      ((r.resourceType = none ∧ r.resourceId = none ∧
          uri = "figma:///file/" ++ r.fileKey) ∨
       ∃ cat, r.resourceType = some cat ∧ cat ≠ "" ∧ (∀ c ∈ cat.toList, isWordChar c) ∧
         ((r.resourceId = none ∧ uri = "figma:///file/" ++ r.fileKey ++ "/" ++ cat) ∨
          ∃ sub, r.resourceId = some sub ∧ sub ≠ "" ∧ (∀ c ∈ sub.toList, isDotChar c) ∧
            uri = "figma:///file/" ++ r.fileKey ++ "/" ++ cat ++ "/" ++ sub)) := by
  unfold validateUri at h
  split at h
  case h_2 => simp at h
  case h_1 rest hrest =>
    have huri : uri.toList = "figma:///file/".toList ++ rest := dropLit_eq_some hrest
    obtain ⟨keyL, hk1, hk2, hkey, hcases⟩ := parseRest_some h
    have hkey_ne : r.fileKey ≠ "" := hkey ▸ asString_ne_empty hk1
    have hkeyP : ∀ c ∈ r.fileKey.toList, isKeyChar c := by rw [hkey]; exact hk2
    refine ⟨hkey_ne, hkeyP, ?_⟩
    rcases hcases with ⟨ht, hi, hrest_eq⟩ | ⟨catL, hc1, hc2, hcat, hrest2⟩
    · refine Or.inl ⟨ht, hi, ?_⟩
      apply string_eq_of_toList_eq
      rw [huri, hrest_eq, hkey]
      simp
    · rcases hrest2 with ⟨hi, hrest_eq⟩ | ⟨subL, hs1, hs2, hsub, hrest_eq⟩
      · refine Or.inr ⟨catL.asString, hcat, asString_ne_empty hc1, (by exact hc2),
          Or.inl ⟨hi, ?_⟩⟩
        apply string_eq_of_toList_eq
        rw [huri, hrest_eq, hkey]
        simp [List.append_assoc]
      · refine Or.inr ⟨catL.asString, hcat, asString_ne_empty hc1, (by exact hc2),
          Or.inr ⟨subL.asString, hsub, asString_ne_empty hs1, (by exact hs2), ?_⟩⟩
        apply string_eq_of_toList_eq
        rw [huri, hrest_eq, hkey]
        simp [List.append_assoc]

/-- C5: on every identifier it accepts, `validateUri` is a total,
deterministic, pure function, and re-assembling the returned
components (`fileKey`, optional `resourceType`, optional `resourceId`)
with the same separators and re-parsing yields an equal
`ValidatedUri`. -/
theorem claim_C5_resolve_roundtrip {uri : String} {r : ValidatedUri}
    (h : validateUri uri = some r) : validateUri (buildUri r) = some r := by
  obtain ⟨hk1, hk2, hcases⟩ := validateUri_some_inv h
  have hb : buildUri r = uri := by
    rcases hcases with ⟨ht, hi, hu⟩ | ⟨cat, ht, hc1, hc2, hrest⟩
    · rw [hu]
      simp [buildUri, ht, String.append_empty]
    · rcases hrest with ⟨hi, hu⟩ | ⟨sub, hi, hs1, hs2, hu⟩
      · rw [hu]
        simp [buildUri, ht, hi, String.append_empty, String.append_assoc]
      · rw [hu]
        simp [buildUri, ht, hi, String.append_assoc]
  rw [hb, h]

/-- Witness for C5 at the spec's example
`figma:///file/ABC123/nodes/1:2,1:3`. -/
theorem claim_C5_resolve_roundtrip_witness :
    validateUri (buildUri ⟨"ABC123", some "nodes", some "1:2,1:3"⟩) =
      some ⟨"ABC123", some "nodes", some "1:2,1:3"⟩ :=
  @claim_C5_resolve_roundtrip "figma:///file/ABC123/nodes/1:2,1:3"
    ⟨"ABC123", some "nodes", some "1:2,1:3"⟩ (by decide)

/-- C7: every identifier that does not match the anchored address
grammar — missing scheme, missing `file/` segment, empty containerKey,
or any merely partial match — is rejected by `validateUri` with the
invalid-address error (modelled `none`), producing no partial
result. -/
theorem claim_C7_malformed_rejected {uri : String} (h : ¬ SpecGrammar uri) :
    validateUri uri = none := by
  cases hv : validateUri uri with
  | none => rfl
  | some r =>
    exfalso
    apply h
    obtain ⟨hk1, hk2, hcases⟩ := validateUri_some_inv hv
    refine ⟨r.fileKey, hk1, hk2, ?_⟩
    rcases hcases with ⟨ht, hi, hu⟩ | ⟨cat, ht, hc1, hc2, hrest⟩
    · exact Or.inl hu
    · refine Or.inr ⟨cat, hc1, hc2, ?_⟩
      rcases hrest with ⟨hi, hu⟩ | ⟨sub, hi, hs1, hs2, hu⟩
      · exact Or.inl hu
      · exact Or.inr ⟨sub, hu⟩

/-- Witness for C7 at the spec's example `not-a-uri` (which is shorter
than the mandatory `figma:///file/` part, so it matches no branch of
the grammar). -/
theorem claim_C7_malformed_rejected_witness : validateUri "not-a-uri" = none := by
  apply claim_C7_malformed_rejected
  rintro ⟨key, hk1, hk2, hu | ⟨cat, hc1, hc2, hu | ⟨sub, hu⟩⟩⟩ <;>
  · have hl := congrArg String.length hu
    simp only [String.length_append] at hl
    have h1 : ("not-a-uri" : String).length = 9 := rfl
    have h2 : ("figma:///file/" : String).length = 14 := rfl
    have h3 : ("/" : String).length = 1 := rfl
    omega

/-- C10: a URI made of the valid scheme, `file/` segment, containerKey
and category but ending in a trailing slash with nothing after it is
rejected whole by `validateUri` (the sub-identifier after a present
separator must be non-empty), rather than parsed with `resourceId`
undefined. -/
theorem claim_C10_trailing_slash_rejected (key cat : String) (hk1 : key ≠ "")
    (hk2 : ∀ c ∈ key.toList, isKeyChar c) (hc1 : cat ≠ "")
    (hc2 : ∀ c ∈ cat.toList, isWordChar c) :
    validateUri ("figma:///file/" ++ key ++ "/" ++ cat ++ "/") = none := by
  have hlist : ("figma:///file/" ++ key ++ "/" ++ cat ++ "/").toList =
      "figma:///file/".toList ++ (key.toList ++ '/' :: (cat.toList ++ ['/'])) := by
    simp [List.append_assoc]
  unfold validateUri
  rw [hlist, dropLit_self_append]
  exact parseRest_cat_trailing_slash (toList_ne_nil hk1) hk2 (toList_ne_nil hc1) hc2

/-- Witness for C10 at `figma:///file/ABC/nodes/`. -/
theorem claim_C10_trailing_slash_rejected_witness :
    validateUri ("figma:///file/" ++ "ABC" ++ "/" ++ "nodes" ++ "/") = none :=
  claim_C10_trailing_slash_rejected "ABC" "nodes" (by decide) (by decide) (by decide)
    (by decide)

/-- C1 (code-bug evidence): for a whole-document address the parsed
`resourceType` is `none` (`undefined`), never the string `'file'` the
source compares against, so `watch` performs no fetch there; the
single fetch happens only for a URI whose category segment is
literally `file`.  The spec states the opposite split: whole-document
addresses get one reachability fetch, category addresses none. -/
theorem claim_C1_watch_wholedoc_no_fetch :
    watch "figma:///file/ABC" = some WatchAction.noop ∧
    watch "figma:///file/ABC/file" = some (WatchAction.fetchFile "ABC") ∧
    validateUri "figma:///file/ABC" = some ⟨"ABC", none, none⟩ := by decide

theorem validateUri_key_only {key : String} (h1 : key ≠ "")
    (h2 : ∀ c ∈ key.toList, isKeyChar c) :
    validateUri ("figma:///file/" ++ key) = some ⟨key, none, none⟩ := by
  have hl : ("figma:///file/" ++ key).toList = "figma:///file/".toList ++ key.toList := by
    simp
  unfold validateUri
  rw [hl, dropLit_self_append]
  exact parseRest_key_only (toList_ne_nil h1) h2

theorem validateUri_key_cat {key cat : String} (h1 : key ≠ "")
    (h2 : ∀ c ∈ key.toList, isKeyChar c) (h3 : cat ≠ "")
    (h4 : ∀ c ∈ cat.toList, isWordChar c) :
    validateUri ("figma:///file/" ++ key ++ "/" ++ cat) = some ⟨key, some cat, none⟩ := by
  have hl : ("figma:///file/" ++ key ++ "/" ++ cat).toList =
      "figma:///file/".toList ++ (key.toList ++ '/' :: cat.toList) := by
    simp [List.append_assoc]
  unfold validateUri
  rw [hl, dropLit_self_append]
  exact parseRest_key_cat (toList_ne_nil h1) h2 (toList_ne_nil h3) h4

theorem listResources_length (files : List FileInfo) :
    (listResources files).length = 7 * files.length := by
  induction files with
  | nil => rfl
  | cons g gs ih =>
    have hsub : subResourceTypes.length = 6 := rfl
    simp only [listResources, List.flatMap_cons, List.length_append, List.length_cons,
      List.length_map, hsub] at ih ⊢
    omega

/-- C2 counterexample: for an accessible file with key `ABC`, `list`
produces 7 entries (the whole-document entry plus six category
entries) and none of them is the `nodes` entry
`figma:///file/ABC/nodes` that the claim's fixed category set
requires. -/
theorem claim_C2_list_cex :
    (listResources [⟨"ABC", "Doc", "2024-01-01", "https://thumb"⟩]).length = 7 ∧
    ¬ ∃ res ∈ listResources [⟨"ABC", "Doc", "2024-01-01", "https://thumb"⟩],
        res.uri = "figma:///file/ABC/nodes" := by decide

/-- C2 (amended): for every accessible file of the upstream listing,
`list` produces the whole-document entry plus one entry per category
in the fixed set {images, comments, versions, components, styles,
variables} — `nodes` is not among them — each carrying a synthesized
identifier that parses under the address grammar to the file's key and
that category; 7 entries per file in total. -/
theorem claim_C2_list_amended (files : List FileInfo) (f : FileInfo) (hf : f ∈ files)
    (h1 : f.key ≠ "") (h2 : ∀ c ∈ f.key.toList, isKeyChar c) :
    (mainFileResource f ∈ listResources files ∧
      validateUri (mainFileResource f).uri = some ⟨f.key, none, none⟩) ∧
    (∀ t ∈ subResourceTypes, subFileResource f t ∈ listResources files ∧
      validateUri (subFileResource f t).uri = some ⟨f.key, some t, none⟩) ∧
    (listResources files).length = 7 * files.length := by
  refine ⟨⟨?_, ?_⟩, ?_, ?_⟩
  · exact List.mem_flatMap.mpr ⟨f, hf, List.mem_cons_self _ _⟩
  · exact validateUri_key_only h1 h2
  · intro t ht
    constructor
    · exact List.mem_flatMap.mpr
        ⟨f, hf, List.mem_cons_of_mem _ (List.mem_map_of_mem _ ht)⟩
    · have hprops : t ≠ "" ∧ ∀ c ∈ t.toList, isWordChar c := by
        fin_cases ht <;> exact ⟨by decide, by decide⟩
      exact validateUri_key_cat h1 h2 hprops.1 hprops.2
  · exact listResources_length files

/-- Witness for C2 (amended) at a single accessible file with key
`ABC`. -/
theorem claim_C2_list_amended_witness :
    (mainFileResource ⟨"ABC", "Doc", "2024-01-01", "https://thumb"⟩ ∈
        listResources [⟨"ABC", "Doc", "2024-01-01", "https://thumb"⟩] ∧
      validateUri (mainFileResource ⟨"ABC", "Doc", "2024-01-01", "https://thumb"⟩).uri =
        some ⟨"ABC", none, none⟩) ∧
    (∀ t ∈ subResourceTypes,
      subFileResource ⟨"ABC", "Doc", "2024-01-01", "https://thumb"⟩ t ∈
          listResources [⟨"ABC", "Doc", "2024-01-01", "https://thumb"⟩] ∧
        validateUri (subFileResource ⟨"ABC", "Doc", "2024-01-01", "https://thumb"⟩ t).uri =
          some ⟨"ABC", some t, none⟩) ∧
    (listResources [⟨"ABC", "Doc", "2024-01-01", "https://thumb"⟩]).length = 7 :=
  claim_C2_list_amended [⟨"ABC", "Doc", "2024-01-01", "https://thumb"⟩]
    ⟨"ABC", "Doc", "2024-01-01", "https://thumb"⟩ (by decide) (by decide) (by decide)

/-! # Supporting lemmas — document normalization -/

theorem jsSize_pos (v : JSValue) : 1 ≤ jsSize v := by
  cases v <;> simp [jsSize]

theorem jsSizeList_le_of_mem {v : JSValue} {l : List JSValue} (h : v ∈ l) :
    jsSize v ≤ jsSizeList l := by
  induction l with
  | nil => cases h
  | cons a t ih =>
    rcases List.mem_cons.mp h with rfl | h2
    · simp [jsSizeList]
    · have := ih h2
      simp [jsSizeList]
      omega

theorem jsSizeFields_le_of_lookup {fs : List (String × JSValue)} {k : String} {v : JSValue}
    (h : fs.lookup k = some v) : jsSize v ≤ jsSizeFields fs := by
  induction fs with
  | nil => simp [List.lookup] at h
  | cons p t ih =>
    rcases p with ⟨k2, w⟩
    rw [List.lookup] at h
    split at h
    · cases h
      simp [jsSizeFields]
    · have := ih h
      simp [jsSizeFields]
      omega

theorem jsSize_child_bound {fs : List (String × JSValue)} {k : String} {cs : List JSValue}
    {c : JSValue} (hl : (JSValue.obj fs).get k = .arr cs) (hc : c ∈ cs) :
    jsSize c + 2 ≤ jsSize (JSValue.obj fs) := by
  have hlk : fs.lookup k = some (JSValue.arr cs) := by
    simp only [JSValue.get] at hl
    cases hlo : fs.lookup k with
    | none => rw [hlo] at hl; cases hl
    | some w => rw [hlo] at hl; cases hl; rfl
  have h1 : jsSize (JSValue.arr cs) ≤ jsSizeFields fs := jsSizeFields_le_of_lookup hlk
  have h2 : jsSize c ≤ jsSizeList cs := jsSizeList_le_of_mem hc
  have h3 : jsSize (JSValue.arr cs) = 1 + jsSizeList cs := by simp [jsSize]
  have h4 : jsSize (JSValue.obj fs) = 1 + jsSizeFields fs := by simp [jsSize]
  omega

theorem optMap_congr {f g : JSValue → Option JSValue} {l : List JSValue}
    (h : ∀ c ∈ l, f c = g c) : optMap f l = optMap g l := by
  induction l with
  | nil => rfl
  | cons a t ih =>
    unfold optMap
    rw [h a (List.mem_cons_self a t), ih fun c hc => h c (List.mem_cons_of_mem a hc)]

theorem optMap_mem {f : JSValue → Option JSValue} {l ts : List JSValue}
    (h : optMap f l = some ts) {t : JSValue} (ht : t ∈ ts) : ∃ c ∈ l, f c = some t := by
  induction l generalizing ts with
  | nil =>
    unfold optMap at h
    cases h
    cases ht
  | cons a l2 ih =>
    unfold optMap at h
    split at h
    next w ws hw hws =>
      cases h
      rcases List.mem_cons.mp ht with rfl | ht2
      · exact ⟨a, List.mem_cons_self a l2, hw⟩
      · obtain ⟨c, hc, hfc⟩ := ih hws ht2
        exact ⟨c, List.mem_cons_of_mem a hc, hfc⟩
    next => cases h

theorem optMap_id_of_forall {f : JSValue → Option JSValue} {l : List JSValue}
    (h : ∀ c ∈ l, f c = some c) : optMap f l = some l := by
  induction l with
  | nil => rfl
  | cons a t ih =>
    unfold optMap
    rw [h a (List.mem_cons_self a t), ih fun c hc => h c (List.mem_cons_of_mem a hc)]

theorem transformCore_congr {n : Nat} : ∀ {m : Nat} {v : JSValue},
    jsSize v ≤ n → jsSize v ≤ m → transformCore n v = transformCore m v := by
  induction n with
  | zero =>
    intro m v hn _
    have := jsSize_pos v
    omega
  | succ n2 ih =>
    intro m v hn hm
    have hv := jsSize_pos v
    cases m with
    | zero => omega
    | succ m2 =>
      cases v with
      | null => rfl
      | undefined => rfl
      | bool b => rfl
      | num x => rfl
      | str s => rfl
      | arr es => rfl
      | obj fs =>
        cases hch : (JSValue.obj fs).get "children" with
        | arr cs =>
          have hopt : optMap (transformCore n2) cs = optMap (transformCore m2) cs := by
            apply optMap_congr
            intro c hc
            have hb := jsSize_child_bound hch hc
            exact ih (by omega) (by omega)
          simp only [transformCore, hch, hopt]
        | null => simp only [transformCore, hch]
        | undefined => simp only [transformCore, hch]
        | bool b => simp only [transformCore, hch]
        | num x => simp only [transformCore, hch]
        | str s => simp only [transformCore, hch]
        | obj fs2 => simp only [transformCore, hch]

theorem transformFigmaNode_core (n : Nat) {v : JSValue} (h : jsSize v ≤ n) :
    transformFigmaNode v = transformCore n v :=
  transformCore_congr (Nat.le_refl _) h

theorem tfn_obj_children {fs : List (String × JSValue)} {cs : List JSValue}
    (hch : (JSValue.obj fs).get "children" = .arr cs) :
    transformFigmaNode (.obj fs) =
      (optMap transformFigmaNode cs).map
        (fun ts => .obj (nodeFields (.obj fs) ++ [("children", .arr ts)])) := by
  have h4 : jsSize (JSValue.obj fs) = 1 + jsSizeFields fs := by simp [jsSize]
  have hstep : transformFigmaNode (.obj fs) = transformCore (jsSizeFields fs + 1) (.obj fs) :=
    transformFigmaNode_core _ (by omega)
  have hopt : optMap (transformCore (jsSizeFields fs)) cs = optMap transformFigmaNode cs := by
    apply optMap_congr
    intro c hc
    exact (transformFigmaNode_core _ (by have := jsSize_child_bound hch hc; omega)).symm
  rw [hstep]
  simp only [transformCore, hch, hopt]
  cases optMap transformFigmaNode cs <;> rfl

theorem tfn_obj_no_children {fs : List (String × JSValue)}
    (hch : ∀ cs, (JSValue.obj fs).get "children" ≠ .arr cs) :
    transformFigmaNode (.obj fs) = some (.obj (nodeFields (.obj fs))) := by
  have h4 : jsSize (JSValue.obj fs) = 1 + jsSizeFields fs := by simp [jsSize]
  have hstep : transformFigmaNode (.obj fs) = transformCore (jsSizeFields fs + 1) (.obj fs) :=
    transformFigmaNode_core _ (by omega)
  rw [hstep]
  cases hch2 : (JSValue.obj fs).get "children" with
  | arr cs => exact absurd hch2 (hch cs)
  | null => simp only [transformCore, hch2]
  | undefined => simp only [transformCore, hch2]
  | bool b => simp only [transformCore, hch2]
  | num x => simp only [transformCore, hch2]
  | str s => simp only [transformCore, hch2]
  | obj fs2 => simp only [transformCore, hch2]

theorem tfn_some_inv {v m : JSValue} (h : transformFigmaNode v = some m) :
    (∃ cs ts, v.get "children" = .arr cs ∧ optMap transformFigmaNode cs = some ts ∧
        m = .obj (nodeFields v ++ [("children", .arr ts)])) ∨
    ((∀ cs, v.get "children" ≠ .arr cs) ∧ m = .obj (nodeFields v)) := by
  cases v with
  | null => exact absurd h (by simp [transformFigmaNode, jsSize, transformCore])
  | undefined => exact absurd h (by simp [transformFigmaNode, jsSize, transformCore])
  | bool b =>
    refine Or.inr ⟨fun cs h2 => by simp [JSValue.get] at h2, ?_⟩
    have hb : transformFigmaNode (.bool b) = some (.obj (nodeFields (.bool b))) := rfl
    rw [hb] at h
    cases h
    rfl
  | num x =>
    refine Or.inr ⟨fun cs h2 => by simp [JSValue.get] at h2, ?_⟩
    have hb : transformFigmaNode (.num x) = some (.obj (nodeFields (.num x))) := rfl
    rw [hb] at h
    cases h
    rfl
  | str s =>
    refine Or.inr ⟨fun cs h2 => by simp [JSValue.get] at h2, ?_⟩
    have hb : transformFigmaNode (.str s) = some (.obj (nodeFields (.str s))) := rfl
    rw [hb] at h
    cases h
    rfl
  | arr es =>
    refine Or.inr ⟨fun cs h2 => by simp [JSValue.get] at h2, ?_⟩
    have hb : transformFigmaNode (.arr es) = some (.obj (nodeFields (.arr es))) := by
      have hstep : transformFigmaNode (.arr es) =
          transformCore (jsSizeList es + 1) (.arr es) :=
        transformFigmaNode_core _ (by simp [jsSize]; omega)
      rw [hstep]
      rfl
    rw [hb] at h
    cases h
    rfl
  | obj fs =>
    by_cases hex : ∃ cs, (JSValue.obj fs).get "children" = JSValue.arr cs
    · obtain ⟨cs, hch⟩ := hex
      rw [tfn_obj_children hch] at h
      cases ho : optMap transformFigmaNode cs with
      | none => rw [ho] at h; cases h
      | some ts =>
        rw [ho] at h
        simp only [Option.map] at h
        cases h
        exact Or.inl ⟨cs, ts, hch, ho, rfl⟩
    · push_neg at hex
      rw [tfn_obj_no_children hex] at h
      cases h
      exact Or.inr ⟨hex, rfl⟩

theorem lookup_append (l1 l2 : List (String × JSValue)) (k : String) :
    (l1 ++ l2).lookup k = ((l1.lookup k).or (l2.lookup k)) := by
  induction l1 with
  | nil => simp [List.lookup, Option.none_or]
  | cons p t ih =>
    rcases p with ⟨a, w⟩
    simp only [List.cons_append, List.lookup]
    cases hka : (k == a) with
    | true => rfl
    | false => exact ih

theorem lookup_single_ne {k a : String} (w : JSValue) (h : k ≠ a) :
    List.lookup k [(a, w)] = none := by
  simp [List.lookup, beq_eq_false_iff_ne.mpr h]

theorem lookup_opt_single_ne {k a : String} {l : List (String × JSValue)}
    (hl : l = [] ∨ ∃ w, l = [(a, w)]) (h : k ≠ a) : List.lookup k l = none := by
  rcases hl with rfl | ⟨w, rfl⟩
  · rfl
  · exact lookup_single_ne w h

theorem bboxFields_shape (bb : JSValue) :
    bboxFields bb = [] ∨ ∃ w, bboxFields bb = [("absoluteBoundingBox", w)] := by
  unfold bboxFields
  split
  · split
    · exact Or.inr ⟨_, rfl⟩
    · exact Or.inl rfl
  · exact Or.inl rfl

theorem stylePart_shape (v : JSValue) :
    stylePart v = [] ∨ ∃ w, stylePart v = [("style", w)] := by
  unfold stylePart
  cases transformStyle (v.get "style") with
  | some s => exact Or.inr ⟨s, rfl⟩
  | none => exact Or.inl rfl

theorem charsPart_shape (v : JSValue) :
    charsPart v = [] ∨ ∃ w, charsPart v = [("characters", w)] := by
  unfold charsPart
  split
  · split
    · exact Or.inr ⟨_, rfl⟩
    all_goals exact Or.inl rfl
  · exact Or.inl rfl

theorem bboxFields_cases (bb : JSValue) :
    (∃ x y w h : Int, bb.truthy = true ∧ bb.get "x" = .num x ∧ bb.get "y" = .num y ∧
        bb.get "width" = .num w ∧ bb.get "height" = .num h ∧
        bboxFields bb = [("absoluteBoundingBox",
          .obj [("x", .num x), ("y", .num y), ("width", .num w), ("height", .num h)])]) ∨
    (bboxFields bb = [] ∧
      (bb.truthy = false ∨
        ¬ ∃ x y w h : Int, bb.get "x" = .num x ∧ bb.get "y" = .num y ∧
          bb.get "width" = .num w ∧ bb.get "height" = .num h)) := by
  unfold bboxFields
  split
  next htr =>
    split
    next x y w h hx hy hw hh => exact Or.inl ⟨x, y, w, h, htr, hx, hy, hw, hh, rfl⟩
    next hno =>
      refine Or.inr ⟨rfl, Or.inr ?_⟩
      rintro ⟨x, y, w, h, hx, hy, hw, hh⟩
      exact hno x y w h hx hy hw hh
  next htr => exact Or.inr ⟨rfl, Or.inl (by simpa using htr)⟩

theorem nf_lookup_id (v : JSValue) : (nodeFields v).lookup "id" = some (v.get "id") := by
  unfold nodeFields
  simp [lookup_append, List.lookup]

theorem nf_lookup_name (v : JSValue) : (nodeFields v).lookup "name" = some (v.get "name") := by
  unfold nodeFields
  simp [lookup_append, List.lookup]

theorem nf_lookup_type (v : JSValue) : (nodeFields v).lookup "type" = some (v.get "type") := by
  unfold nodeFields
  simp [lookup_append, List.lookup]

theorem nf_lookup_bbox (v : JSValue) :
    (nodeFields v).lookup "absoluteBoundingBox" =
      (bboxFields (v.get "absoluteBoundingBox")).lookup "absoluteBoundingBox" := by
  have hsty := stylePart_shape v
  have hchp := charsPart_shape v
  unfold nodeFields
  rw [lookup_append, lookup_append, lookup_append]
  rw [lookup_opt_single_ne hsty (by decide), lookup_opt_single_ne hchp (by decide)]
  simp [List.lookup, Option.none_or, Option.or_none]

theorem nf_lookup_style (v : JSValue) :
    (nodeFields v).lookup "style" = transformStyle (v.get "style") := by
  have hbb := bboxFields_shape (v.get "absoluteBoundingBox")
  have hchp := charsPart_shape v
  unfold nodeFields
  rw [lookup_append, lookup_append, lookup_append]
  rw [lookup_opt_single_ne hbb (by decide), lookup_opt_single_ne hchp (by decide)]
  unfold stylePart
  cases transformStyle (v.get "style") <;>
    simp [List.lookup, Option.none_or, Option.or_none]

theorem nf_lookup_chars (v : JSValue) :
    (nodeFields v).lookup "characters" = (charsPart v).lookup "characters" := by
  have hbb := bboxFields_shape (v.get "absoluteBoundingBox")
  have hsty := stylePart_shape v
  unfold nodeFields
  rw [lookup_append, lookup_append, lookup_append]
  rw [lookup_opt_single_ne hbb (by decide), lookup_opt_single_ne hsty (by decide)]
  simp [List.lookup, Option.none_or, Option.or_none]

theorem nf_lookup_children (v : JSValue) : (nodeFields v).lookup "children" = none := by
  have hbb := bboxFields_shape (v.get "absoluteBoundingBox")
  have hsty := stylePart_shape v
  have hchp := charsPart_shape v
  unfold nodeFields
  rw [lookup_append, lookup_append, lookup_append]
  rw [lookup_opt_single_ne hbb (by decide), lookup_opt_single_ne hsty (by decide),
    lookup_opt_single_ne hchp (by decide)]
  simp [List.lookup, Option.none_or, Option.or_none]

theorem charsPart_text {v : JSValue} {s : String} (htype : v.get "type" = .str "TEXT")
    (hchars : v.get "characters" = .str s) :
    charsPart v = [("characters", .str (summarizeText s))] := by
  unfold charsPart
  rw [htype, hchars]
  simp [JSValue.eqStr]

theorem condPart_lookup_self (c : Bool) (k : String) (w : JSValue) :
    (condPart c k w).lookup k = if c then some w else none := by
  unfold condPart
  split <;> simp [List.lookup]

theorem condPart_lookup_ne {a k : String} (c : Bool) (w : JSValue) (h : a ≠ k) :
    (condPart c k w).lookup a = none := by
  unfold condPart
  split
  · exact lookup_single_ne w h
  · rfl

theorem lineHeightPart_lookup_ne {a : String} (sty : JSValue) (h : a ≠ "lineHeight") :
    (lineHeightPart sty).lookup a = none := by
  unfold lineHeightPart
  split_ifs <;> first | rfl | exact lookup_single_ne _ h

theorem lineHeightPart_lookup_self (sty : JSValue) :
    (lineHeightPart sty).lookup "lineHeight" =
      (if (sty.get "lineHeight").isNumber then some (sty.get "lineHeight")
       else if ((sty.get "lineHeight").get "value").truthy
              && ((sty.get "lineHeight").get "value").isNumber
       then some ((sty.get "lineHeight").get "value") else none) := by
  unfold lineHeightPart
  split_ifs <;> simp [List.lookup]

theorem fillsPart_arr {sty : JSValue} {fills : List JSValue}
    (hf : sty.get "fills" = .arr fills) :
    fillsPart sty =
      (if (fills.filterMap transformFill).isEmpty then []
       else [("fills", .arr (fills.filterMap transformFill))]) := by
  unfold fillsPart
  rw [hf]

theorem fillsPart_not_arr {sty : JSValue} (hf : ∀ fills, sty.get "fills" ≠ .arr fills) :
    fillsPart sty = [] := by
  unfold fillsPart
  cases hg : sty.get "fills" <;> first | rfl | exact absurd hg (hf _)

theorem fillsPart_shape (sty : JSValue) :
    fillsPart sty = [] ∨ ∃ w, fillsPart sty = [("fills", w)] := by
  by_cases hex : ∃ fills, sty.get "fills" = JSValue.arr fills
  · obtain ⟨fills, hf⟩ := hex
    rw [fillsPart_arr hf]
    split
    · exact Or.inl rfl
    · exact Or.inr ⟨_, rfl⟩
  · push_neg at hex
    rw [fillsPart_not_arr hex]
    exact Or.inl rfl

theorem fillsPart_lookup_ne {a : String} (sty : JSValue) (h : a ≠ "fills") :
    (fillsPart sty).lookup a = none :=
  lookup_opt_single_ne (fillsPart_shape sty) h

theorem fillsPart_lookup_arr {sty : JSValue} {fills : List JSValue}
    (hf : sty.get "fills" = .arr fills) :
    (fillsPart sty).lookup "fills" =
      (if (fills.filterMap transformFill).isEmpty then none
       else some (.arr (fills.filterMap transformFill))) := by
  rw [fillsPart_arr hf]
  split <;> simp [List.lookup]

theorem sf_lookup_fontFamily (sty : JSValue) :
    (styleFields sty).lookup "fontFamily" =
      (if (sty.get "fontFamily").isString then some (sty.get "fontFamily") else none) := by
  unfold styleFields
  rw [lookup_append, lookup_append, lookup_append, lookup_append, lookup_append,
    lookup_append]
  rw [condPart_lookup_self, condPart_lookup_ne _ _ (by decide),
    condPart_lookup_ne _ _ (by decide), condPart_lookup_ne _ _ (by decide),
    condPart_lookup_ne _ _ (by decide), lineHeightPart_lookup_ne _ (by decide),
    fillsPart_lookup_ne _ (by decide)]
  simp [Option.none_or, Option.or_none]

theorem sf_lookup_fontSize (sty : JSValue) :
    (styleFields sty).lookup "fontSize" =
      (if (sty.get "fontSize").isNumber then some (sty.get "fontSize") else none) := by
  unfold styleFields
  rw [lookup_append, lookup_append, lookup_append, lookup_append, lookup_append,
    lookup_append]
  rw [condPart_lookup_ne _ _ (by decide), condPart_lookup_self,
    condPart_lookup_ne _ _ (by decide), condPart_lookup_ne _ _ (by decide),
    condPart_lookup_ne _ _ (by decide), lineHeightPart_lookup_ne _ (by decide),
    fillsPart_lookup_ne _ (by decide)]
  simp [Option.none_or, Option.or_none]

theorem sf_lookup_fontWeight (sty : JSValue) :
    (styleFields sty).lookup "fontWeight" =
      (if (sty.get "fontWeight").isNumber then some (sty.get "fontWeight") else none) := by
  unfold styleFields
  rw [lookup_append, lookup_append, lookup_append, lookup_append, lookup_append,
    lookup_append]
  rw [condPart_lookup_ne _ _ (by decide), condPart_lookup_ne _ _ (by decide),
    condPart_lookup_self, condPart_lookup_ne _ _ (by decide),
    condPart_lookup_ne _ _ (by decide), lineHeightPart_lookup_ne _ (by decide),
    fillsPart_lookup_ne _ (by decide)]
  simp [Option.none_or, Option.or_none]

theorem sf_lookup_letterSpacing (sty : JSValue) :
    (styleFields sty).lookup "letterSpacing" =
      (if (sty.get "letterSpacing").isNumber then some (sty.get "letterSpacing") else none) := by
  unfold styleFields
  rw [lookup_append, lookup_append, lookup_append, lookup_append, lookup_append,
    lookup_append]
  rw [condPart_lookup_ne _ _ (by decide), condPart_lookup_ne _ _ (by decide),
    condPart_lookup_ne _ _ (by decide), condPart_lookup_self,
    condPart_lookup_ne _ _ (by decide), lineHeightPart_lookup_ne _ (by decide),
    fillsPart_lookup_ne _ (by decide)]
  simp [Option.none_or, Option.or_none]

theorem sf_lookup_textAlign (sty : JSValue) :
    (styleFields sty).lookup "textAlignHorizontal" =
      (if (sty.get "textAlignHorizontal").isString then some (sty.get "textAlignHorizontal")
       else none) := by
  unfold styleFields
  rw [lookup_append, lookup_append, lookup_append, lookup_append, lookup_append,
    lookup_append]
  rw [condPart_lookup_ne _ _ (by decide), condPart_lookup_ne _ _ (by decide),
    condPart_lookup_ne _ _ (by decide), condPart_lookup_ne _ _ (by decide),
    condPart_lookup_self, lineHeightPart_lookup_ne _ (by decide),
    fillsPart_lookup_ne _ (by decide)]
  simp [Option.none_or, Option.or_none]

theorem sf_lookup_lineHeight (sty : JSValue) :
    (styleFields sty).lookup "lineHeight" =
      (if (sty.get "lineHeight").isNumber then some (sty.get "lineHeight")
       else if ((sty.get "lineHeight").get "value").truthy
              && ((sty.get "lineHeight").get "value").isNumber
       then some ((sty.get "lineHeight").get "value") else none) := by
  unfold styleFields
  rw [lookup_append, lookup_append, lookup_append, lookup_append, lookup_append,
    lookup_append]
  rw [condPart_lookup_ne _ _ (by decide), condPart_lookup_ne _ _ (by decide),
    condPart_lookup_ne _ _ (by decide), condPart_lookup_ne _ _ (by decide),
    condPart_lookup_ne _ _ (by decide), lineHeightPart_lookup_self,
    fillsPart_lookup_ne _ (by decide)]
  simp [Option.none_or, Option.or_none]

theorem sf_lookup_fills_arr {sty : JSValue} {fills : List JSValue}
    (hf : sty.get "fills" = .arr fills) :
    (styleFields sty).lookup "fills" =
      (if (fills.filterMap transformFill).isEmpty then none
       else some (.arr (fills.filterMap transformFill))) := by
  unfold styleFields
  rw [lookup_append, lookup_append, lookup_append, lookup_append, lookup_append,
    lookup_append]
  rw [condPart_lookup_ne _ _ (by decide), condPart_lookup_ne _ _ (by decide),
    condPart_lookup_ne _ _ (by decide), condPart_lookup_ne _ _ (by decide),
    condPart_lookup_ne _ _ (by decide), lineHeightPart_lookup_ne _ (by decide),
    fillsPart_lookup_arr hf]
  simp [Option.none_or, Option.or_none]

theorem sf_lookup_fills_not_arr {sty : JSValue}
    (hf : ∀ fills, sty.get "fills" ≠ JSValue.arr fills) :
    (styleFields sty).lookup "fills" = none := by
  unfold styleFields
  rw [lookup_append, lookup_append, lookup_append, lookup_append, lookup_append,
    lookup_append]
  rw [condPart_lookup_ne _ _ (by decide), condPart_lookup_ne _ _ (by decide),
    condPart_lookup_ne _ _ (by decide), condPart_lookup_ne _ _ (by decide),
    condPart_lookup_ne _ _ (by decide), lineHeightPart_lookup_ne _ (by decide),
    fillsPart_not_arr hf]
  simp [Option.none_or, Option.or_none, List.lookup]

theorem transformStyle_some_inv {sty s : JSValue} (h : transformStyle sty = some s) :
    sty.truthy = true ∧ sty.isObjLike = true ∧ styleFields sty ≠ [] ∧
      s = .obj (styleFields sty) := by
  unfold transformStyle at h
  split at h
  next hcond =>
    split at h
    · simp at h
    next hne =>
      cases h
      have hc : sty.truthy = true ∧ sty.isObjLike = true := by simpa using hcond
      exact ⟨hc.1, hc.2, by simpa [List.isEmpty_iff] using hne, rfl⟩
  next => simp at h

theorem transformStyle_eq_some {sty : JSValue} (h1 : sty.truthy = true)
    (h2 : sty.isObjLike = true) (h3 : styleFields sty ≠ []) :
    transformStyle sty = some (.obj (styleFields sty)) := by
  unfold transformStyle
  rw [if_pos (by simp [h1, h2]), if_neg (by simpa [List.isEmpty_iff] using h3)]

theorem get_transform_output (v : JSValue) (kids : List (String × JSValue))
    (hkids : kids = [] ∨ ∃ w, kids = [("children", w)]) (k : String) (hk : k ≠ "children") :
    (JSValue.obj (nodeFields v ++ kids)).get k = ((nodeFields v).lookup k).getD .undefined := by
  show ((nodeFields v ++ kids).lookup k).getD .undefined = _
  rw [lookup_append, lookup_opt_single_ne hkids hk, Option.or_none]

/-- C6: for every text-leaf node (`type === 'TEXT'`) with string
`characters`, the normalized node carries `summarizeText` of the raw
text: above the threshold of 100 units the result has length exactly
103, the first 100 units followed by the 3-character ellipsis marker;
at or below the threshold the text is passed through unchanged. -/
theorem claim_C6_text_truncation {v m : JSValue} {s : String}
    (h : transformFigmaNode v = some m) (htype : v.get "type" = .str "TEXT")
    (hchars : v.get "characters" = .str s) :
    m.get "characters" = .str (summarizeText s) ∧
    (s.length > 100 →
      (summarizeText s).length = 103 ∧
      (summarizeText s).toList = s.toList.take 100 ++ "...".toList) ∧
    (s.length ≤ 100 → summarizeText s = s) := by
  refine ⟨?_, ?_, ?_⟩
  · have hget : m.get "characters" = ((nodeFields v).lookup "characters").getD .undefined := by
      rcases tfn_some_inv h with ⟨cs, ts, hch, hts, rfl⟩ | ⟨hnc, rfl⟩
      · exact get_transform_output v _ (Or.inr ⟨_, rfl⟩) _ (by decide)
      · rfl
    rw [hget, nf_lookup_chars, charsPart_text htype hchars]
    simp [List.lookup]
  · intro hlen
    have e : summarizeText s = (s.toList.take 100).asString ++ "..." := by
      unfold summarizeText
      rw [if_pos hlen]
    have hstl : s.toList.length = s.length := rfl
    have hlen100 : (s.toList.take 100).length = 100 := by
      rw [List.length_take]
      omega
    constructor
    · rw [e, String.length_append]
      have ha : ((s.toList.take 100).asString).length = (s.toList.take 100).length := rfl
      have hd : ("..." : String).length = 3 := rfl
      omega
    · rw [e]
      simp
  · intro hlen
    unfold summarizeText
    rw [if_neg (by omega)]

/-- Witness for C6 at the spec's example: a `TEXT` node whose
`characters` is 150 units long; the normalized `characters` is the
summarized text (length 103, first 100 units plus the marker). -/
theorem claim_C6_text_truncation_witness :
    (JSValue.obj [("id", .str "1"), ("name", .str "T"), ("type", .str "TEXT"),
        ("characters", .str (summarizeText ((List.replicate 150 'x').asString)))]).get
        "characters" =
      .str (summarizeText ((List.replicate 150 'x').asString)) ∧
    (((List.replicate 150 'x').asString).length > 100 →
      (summarizeText ((List.replicate 150 'x').asString)).length = 103 ∧
      (summarizeText ((List.replicate 150 'x').asString)).toList =
        ((List.replicate 150 'x').asString).toList.take 100 ++ "...".toList) ∧
    (((List.replicate 150 'x').asString).length ≤ 100 →
      summarizeText ((List.replicate 150 'x').asString) = (List.replicate 150 'x').asString) :=
  @claim_C6_text_truncation
    (.obj [("id", .str "1"), ("name", .str "T"), ("type", .str "TEXT"),
      ("characters", .str ((List.replicate 150 'x').asString))])
    (.obj [("id", .str "1"), ("name", .str "T"), ("type", .str "TEXT"),
      ("characters", .str (summarizeText ((List.replicate 150 'x').asString)))])
    ((List.replicate 150 'x').asString) (by rfl) rfl rfl

/-- C8: bounding-box extraction is all-or-nothing — the normalized
node carries `absoluteBoundingBox` (with exactly the four numeric
fields) only when the raw box is truthy and all four of `x`, `y`,
`width`, `height` are numbers; otherwise the field is entirely absent
(`undefined`), never a partial box. -/
theorem claim_C8_bbox_all_or_nothing {v m : JSValue} (h : transformFigmaNode v = some m) :
    (∃ x y w hh : Int, (v.get "absoluteBoundingBox").truthy = true ∧
        (v.get "absoluteBoundingBox").get "x" = .num x ∧
        (v.get "absoluteBoundingBox").get "y" = .num y ∧
        (v.get "absoluteBoundingBox").get "width" = .num w ∧
        (v.get "absoluteBoundingBox").get "height" = .num hh ∧
        m.get "absoluteBoundingBox" =
          .obj [("x", .num x), ("y", .num y), ("width", .num w), ("height", .num hh)]) ∨
    m.get "absoluteBoundingBox" = .undefined := by
  have hget : m.get "absoluteBoundingBox" =
      ((nodeFields v).lookup "absoluteBoundingBox").getD .undefined := by
    rcases tfn_some_inv h with ⟨cs, ts, hch, hts, rfl⟩ | ⟨hnc, rfl⟩
    · exact get_transform_output v _ (Or.inr ⟨_, rfl⟩) _ (by decide)
    · rfl
  rw [nf_lookup_bbox] at hget
  rcases bboxFields_cases (v.get "absoluteBoundingBox") with
    ⟨x, y, w, hh, htr, hx, hy, hw, hht, hbb⟩ | ⟨hbb, _⟩
  · left
    refine ⟨x, y, w, hh, htr, hx, hy, hw, hht, ?_⟩
    rw [hget, hbb]
    simp [List.lookup]
  · right
    rw [hget, hbb]
    rfl

/-- Witness for C8 at the spec's example: a node with
`absoluteBoundingBox = {x: 1, y: "bad", width: 10, height: 10}` — the
normalized node has no bounding box at all. -/
theorem claim_C8_bbox_all_or_nothing_witness :
    (∃ x y w hh : Int,
        ((JSValue.obj [("id", .str "1"), ("name", .str "N"), ("type", .str "FRAME"),
            ("absoluteBoundingBox", .obj [("x", .num 1), ("y", .str "bad"),
              ("width", .num 10), ("height", .num 10)])]).get
            "absoluteBoundingBox").truthy = true ∧
        (((JSValue.obj [("id", .str "1"), ("name", .str "N"), ("type", .str "FRAME"),
            ("absoluteBoundingBox", .obj [("x", .num 1), ("y", .str "bad"),
              ("width", .num 10), ("height", .num 10)])]).get
            "absoluteBoundingBox").get "x") = .num x ∧
        (((JSValue.obj [("id", .str "1"), ("name", .str "N"), ("type", .str "FRAME"),
            ("absoluteBoundingBox", .obj [("x", .num 1), ("y", .str "bad"),
              ("width", .num 10), ("height", .num 10)])]).get
            "absoluteBoundingBox").get "y") = .num y ∧
        (((JSValue.obj [("id", .str "1"), ("name", .str "N"), ("type", .str "FRAME"),
            ("absoluteBoundingBox", .obj [("x", .num 1), ("y", .str "bad"),
              ("width", .num 10), ("height", .num 10)])]).get
            "absoluteBoundingBox").get "width") = .num w ∧
        (((JSValue.obj [("id", .str "1"), ("name", .str "N"), ("type", .str "FRAME"),
            ("absoluteBoundingBox", .obj [("x", .num 1), ("y", .str "bad"),
              ("width", .num 10), ("height", .num 10)])]).get
            "absoluteBoundingBox").get "height") = .num hh ∧
        (JSValue.obj [("id", .str "1"), ("name", .str "N"),
            ("type", .str "FRAME")]).get "absoluteBoundingBox" =
          .obj [("x", .num x), ("y", .num y), ("width", .num w), ("height", .num hh)]) ∨
    (JSValue.obj [("id", .str "1"), ("name", .str "N"),
        ("type", .str "FRAME")]).get "absoluteBoundingBox" = .undefined :=
  @claim_C8_bbox_all_or_nothing
    (.obj [("id", .str "1"), ("name", .str "N"), ("type", .str "FRAME"),
      ("absoluteBoundingBox", .obj [("x", .num 1), ("y", .str "bad"),
        ("width", .num 10), ("height", .num 10)])])
    (.obj [("id", .str "1"), ("name", .str "N"), ("type", .str "FRAME")]) (by rfl)

/-- C3 counterexample: for the raw style
`{lineHeight: {value: 0}}` — an object with a numeric `value` field —
the claim demands an extracted `lineHeight` of `0`, but the code's
truthiness guard (`style.lineHeight?.value && ...`) drops the falsy
numeric `0`, and with no other field the whole style collapses to
`undefined`. -/
theorem claim_C3_lineHeight_cex :
    transformStyle (.obj [("lineHeight", .obj [("value", .num 0)])]) = none := rfl

/-- C3 (amended): a bare numeric `lineHeight` is used as-is (and takes
precedence); a `lineHeight` object with a numeric **and truthy
(non-zero)** `value` field yields that value — the truthiness guard in
the source excludes a numeric `value` of `0`. -/
theorem claim_C3_lineHeight_amended (sty : JSValue) (n : Int)
    (h1 : sty.truthy = true) (h2 : sty.isObjLike = true) :
    (sty.get "lineHeight" = .num n →
      ∃ s, transformStyle sty = some s ∧ s.get "lineHeight" = .num n) ∧
    ((sty.get "lineHeight").isNumber = false →
      (sty.get "lineHeight").get "value" = .num n → n ≠ 0 →
      ∃ s, transformStyle sty = some s ∧ s.get "lineHeight" = .num n) := by
  constructor
  · intro hn
    have hlook : (styleFields sty).lookup "lineHeight" = some (.num n) := by
      rw [sf_lookup_lineHeight, hn]
      simp [JSValue.isNumber]
    have hne : styleFields sty ≠ [] := by
      intro he
      rw [he] at hlook
      simp [List.lookup] at hlook
    refine ⟨.obj (styleFields sty), transformStyle_eq_some h1 h2 hne, ?_⟩
    show ((styleFields sty).lookup "lineHeight").getD .undefined = _
    rw [hlook]
    rfl
  · intro hnn hval hn0
    have hlook : (styleFields sty).lookup "lineHeight" = some (.num n) := by
      rw [sf_lookup_lineHeight, hval, if_neg (by simp [hnn]),
        if_pos (by simp [JSValue.truthy, JSValue.isNumber, hn0])]
    have hne : styleFields sty ≠ [] := by
      intro he
      rw [he] at hlook
      simp [List.lookup] at hlook
    refine ⟨.obj (styleFields sty), transformStyle_eq_some h1 h2 hne, ?_⟩
    show ((styleFields sty).lookup "lineHeight").getD .undefined = _
    rw [hlook]
    rfl

/-- Witness for C3 (amended) at the spec's example
`style.lineHeight = {value: 24, unit: "PIXELS"}` → `lineHeight = 24`. -/
theorem claim_C3_lineHeight_amended_witness :
    ∃ s, transformStyle (.obj [("lineHeight",
        .obj [("value", .num 24), ("unit", .str "PIXELS")])]) = some s ∧
      s.get "lineHeight" = .num 24 :=
  (claim_C3_lineHeight_amended
    (.obj [("lineHeight", .obj [("value", .num 24), ("unit", .str "PIXELS")])]) 24
    (by decide) (by decide)).2 (by decide) rfl (by decide)

/-- C9: fill descriptors without a string `type` are dropped entirely
(`transformFill` yields `undefined`); a color whose `r`/`g`/`b`/`a`
channels are not all numeric is rejected by `transformColor`; a fill
with a string `type` but a falsy or invalid color survives without a
`color` sub-field; and the `fills` array is attached to the extracted
style exactly when at least one descriptor survived. -/
theorem claim_C9_fill_validation :
    (∀ f : JSValue, (f.get "type").isString = false → transformFill f = none) ∧
    (∀ c : JSValue,
      (¬ ∃ r g b a : Int, c.get "r" = .num r ∧ c.get "g" = .num g ∧
          c.get "b" = .num b ∧ c.get "a" = .num a) → transformColor c = none) ∧
    (∀ f : JSValue, f.truthy = true → f.isObjLike = true → (f.get "type").isString = true →
      ((f.get "color").truthy = false ∨ transformColor (f.get "color") = none) →
      transformFill f = some (.obj [("type", f.get "type")])) ∧
    (∀ sty s : JSValue, ∀ fills : List JSValue, transformStyle sty = some s →
      sty.get "fills" = .arr fills →
      (fills.filterMap transformFill = [] → s.get "fills" = .undefined) ∧
      (fills.filterMap transformFill ≠ [] →
        s.get "fills" = .arr (fills.filterMap transformFill))) := by
  refine ⟨?_, ?_, ?_, ?_⟩
  · intro f hf
    unfold transformFill
    rw [if_neg (by simp [hf])]
  · intro c hno
    unfold transformColor
    split
    next hcond =>
      split
      next r g b a hr hg hb ha => exact absurd ⟨r, g, b, a, hr, hg, hb, ha⟩ hno
      next => rfl
    next => rfl
  · intro f h1 h2 h3 h4
    unfold transformFill
    rw [if_pos (by simp [h1, h2, h3])]
    rcases h4 with h4 | h4
    · rw [if_neg (by simp [h4])]
    · by_cases hc : (f.get "color").truthy = true
      · rw [if_pos hc, h4]
      · rw [if_neg hc]
  · intro sty s fills hst hf
    obtain ⟨h1, h2, h3, rfl⟩ := transformStyle_some_inv hst
    constructor
    · intro hkept
      show ((styleFields sty).lookup "fills").getD .undefined = .undefined
      rw [sf_lookup_fills_arr hf, if_pos (by simp [hkept])]
      rfl
    · intro hkept
      show ((styleFields sty).lookup "fills").getD .undefined = _
      rw [sf_lookup_fills_arr hf, if_neg (by simpa [List.isEmpty_iff] using hkept)]
      rfl

/-- Witness for C9: a fill `{type: "SOLID", color: {r: 0, g: 0, b: 1}}`
with a partial color (missing `a`) survives `transformFill` without a
`color` sub-field. -/
theorem claim_C9_fill_validation_witness :
    transformFill (.obj [("type", .str "SOLID"),
        ("color", .obj [("r", .num 0), ("g", .num 0), ("b", .num 1)])]) =
      some (.obj [("type", .str "SOLID")]) :=
  claim_C9_fill_validation.2.2.1
    (.obj [("type", .str "SOLID"),
      ("color", .obj [("r", .num 0), ("g", .num 0), ("b", .num 1)])])
    (by decide) (by decide) (by decide) (Or.inr rfl)

theorem transformColor_some_truthy {c col : JSValue} (h : transformColor c = some col) :
    col.truthy = true := by
  unfold transformColor at h
  split at h
  · split at h
    · cases h
      rfl
    · cases h
  · cases h

theorem transformColor_out {c col : JSValue} (h : transformColor c = some col) :
    transformColor col = some col := by
  unfold transformColor at h
  split at h
  next hcond =>
    split at h
    next r g b a hr hg hb ha =>
      cases h
      rfl
    next => cases h
  next => cases h

theorem transformFill_base (T : String) :
    transformFill (.obj [("type", .str T)]) = some (.obj [("type", .str T)]) := rfl

theorem transformFill_withColor (T : String) (col : JSValue)
    (hcol : transformColor col = some col) (htr : col.truthy = true) :
    transformFill (.obj [("type", .str T), ("color", col)]) =
      some (.obj [("type", .str T), ("color", col)]) := by
  unfold transformFill
  rw [if_pos (by simp [JSValue.truthy, JSValue.isObjLike, JSValue.isString,
    JSValue.get, List.lookup])]
  have hgc : (JSValue.obj [("type", .str T), ("color", col)]).get "color" = col := by
    simp [JSValue.get, List.lookup]
  rw [hgc, if_pos htr, hcol]
  simp [JSValue.get, List.lookup]

theorem transformFill_idem {f g : JSValue} (h : transformFill f = some g) :
    transformFill g = some g := by
  unfold transformFill at h
  split at h
  next hcond =>
    have h3 : (f.get "type").isString = true := by
      simp only [Bool.and_eq_true] at hcond
      exact hcond.2
    obtain ⟨T, hT⟩ : ∃ T, f.get "type" = .str T := by
      cases hg : f.get "type" <;> rw [hg] at h3 <;>
        first
          | exact ⟨_, rfl⟩
          | simp [JSValue.isString] at h3
    rw [hT] at h
    split at h
    next hctruthy =>
      cases hcol : transformColor (f.get "color") with
      | some col =>
        rw [hcol] at h
        cases h
        exact transformFill_withColor T col (transformColor_out hcol)
          (transformColor_some_truthy hcol)
      | none =>
        rw [hcol] at h
        cases h
        exact transformFill_base T
    next =>
      cases h
      exact transformFill_base T
  next => cases h

theorem filterMap_id_of_forall {f : JSValue → Option JSValue} {l : List JSValue}
    (h : ∀ b ∈ l, f b = some b) : l.filterMap f = l := by
  induction l with
  | nil => rfl
  | cons a t ih =>
    rw [List.filterMap_cons, h a (List.mem_cons_self a t),
      ih fun b hb => h b (List.mem_cons_of_mem a hb)]

theorem summarizeText_long {s : String} (h : s.length > 100) :
    summarizeText s = (s.toList.take 100).asString ++ "..." := by
  unfold summarizeText
  rw [if_pos h]

theorem summarizeText_short {s : String} (h : ¬ s.length > 100) : summarizeText s = s := by
  unfold summarizeText
  rw [if_neg h]

theorem summarizeText_length_long {s : String} (h : s.length > 100) :
    (summarizeText s).length = 103 := by
  rw [summarizeText_long h, String.length_append]
  have ha : ((s.toList.take 100).asString).length = (s.toList.take 100).length := rfl
  have h100 : (s.toList.take 100).length = 100 := by
    rw [List.length_take]
    have : s.toList.length = s.length := rfl
    omega
  have hd : ("..." : String).length = 3 := rfl
  omega

theorem summarizeText_idem (s : String) :
    summarizeText (summarizeText s) = summarizeText s := by
  by_cases hl : s.length > 100
  · have h100 : (s.toList.take 100).length = 100 := by
      rw [List.length_take]
      have : s.toList.length = s.length := rfl
      omega
    have hlen : (summarizeText s).length > 100 := by
      have := summarizeText_length_long hl
      omega
    rw [summarizeText_long hlen]
    conv_lhs => rw [summarizeText_long hl]
    rw [summarizeText_long hl]
    congr 1
    have ht : ((s.toList.take 100).asString ++ "...").toList =
        s.toList.take 100 ++ "...".toList := by simp
    rw [ht, List.take_left' h100]
  · rw [summarizeText_short hl, summarizeText_short hl]

theorem styleFields_def (style : JSValue) :
    styleFields style =
      condPart (style.get "fontFamily").isString "fontFamily" (style.get "fontFamily")
      ++ condPart (style.get "fontSize").isNumber "fontSize" (style.get "fontSize")
      ++ condPart (style.get "fontWeight").isNumber "fontWeight" (style.get "fontWeight")
      ++ condPart (style.get "letterSpacing").isNumber "letterSpacing"
          (style.get "letterSpacing")
      ++ condPart (style.get "textAlignHorizontal").isString "textAlignHorizontal"
          (style.get "textAlignHorizontal")
      ++ lineHeightPart style
      ++ fillsPart style := rfl

theorem styleFields_idem (sty : JSValue) :
    styleFields (.obj (styleFields sty)) = styleFields sty := by
  have hgetFF : (JSValue.obj (styleFields sty)).get "fontFamily" =
      (if (sty.get "fontFamily").isString then some (sty.get "fontFamily") else none).getD
        .undefined := by
    show ((styleFields sty).lookup "fontFamily").getD .undefined = _
    rw [sf_lookup_fontFamily]
  have hgetFS : (JSValue.obj (styleFields sty)).get "fontSize" =
      (if (sty.get "fontSize").isNumber then some (sty.get "fontSize") else none).getD
        .undefined := by
    show ((styleFields sty).lookup "fontSize").getD .undefined = _
    rw [sf_lookup_fontSize]
  have hgetFW : (JSValue.obj (styleFields sty)).get "fontWeight" =
      (if (sty.get "fontWeight").isNumber then some (sty.get "fontWeight") else none).getD
        .undefined := by
    show ((styleFields sty).lookup "fontWeight").getD .undefined = _
    rw [sf_lookup_fontWeight]
  have hgetLS : (JSValue.obj (styleFields sty)).get "letterSpacing" =
      (if (sty.get "letterSpacing").isNumber then some (sty.get "letterSpacing")
       else none).getD .undefined := by
    show ((styleFields sty).lookup "letterSpacing").getD .undefined = _
    rw [sf_lookup_letterSpacing]
  have hgetTA : (JSValue.obj (styleFields sty)).get "textAlignHorizontal" =
      (if (sty.get "textAlignHorizontal").isString then some (sty.get "textAlignHorizontal")
       else none).getD .undefined := by
    show ((styleFields sty).lookup "textAlignHorizontal").getD .undefined = _
    rw [sf_lookup_textAlign]
  have e1 : condPart ((JSValue.obj (styleFields sty)).get "fontFamily").isString "fontFamily"
      ((JSValue.obj (styleFields sty)).get "fontFamily") =
      condPart (sty.get "fontFamily").isString "fontFamily" (sty.get "fontFamily") := by
    rw [hgetFF]
    by_cases hc : (sty.get "fontFamily").isString = true
    · simp [hc]
    · simp [hc, condPart, show JSValue.isString JSValue.undefined = false from rfl]
  have e2 : condPart ((JSValue.obj (styleFields sty)).get "fontSize").isNumber "fontSize"
      ((JSValue.obj (styleFields sty)).get "fontSize") =
      condPart (sty.get "fontSize").isNumber "fontSize" (sty.get "fontSize") := by
    rw [hgetFS]
    by_cases hc : (sty.get "fontSize").isNumber = true
    · simp [hc]
    · simp [hc, condPart, show JSValue.isNumber JSValue.undefined = false from rfl]
  have e3 : condPart ((JSValue.obj (styleFields sty)).get "fontWeight").isNumber "fontWeight"
      ((JSValue.obj (styleFields sty)).get "fontWeight") =
      condPart (sty.get "fontWeight").isNumber "fontWeight" (sty.get "fontWeight") := by
    rw [hgetFW]
    by_cases hc : (sty.get "fontWeight").isNumber = true
    · simp [hc]
    · simp [hc, condPart, show JSValue.isNumber JSValue.undefined = false from rfl]
  have e4 : condPart ((JSValue.obj (styleFields sty)).get "letterSpacing").isNumber
      "letterSpacing" ((JSValue.obj (styleFields sty)).get "letterSpacing") =
      condPart (sty.get "letterSpacing").isNumber "letterSpacing"
        (sty.get "letterSpacing") := by
    rw [hgetLS]
    by_cases hc : (sty.get "letterSpacing").isNumber = true
    · simp [hc]
    · simp [hc, condPart, show JSValue.isNumber JSValue.undefined = false from rfl]
  have e5 : condPart ((JSValue.obj (styleFields sty)).get "textAlignHorizontal").isString
      "textAlignHorizontal" ((JSValue.obj (styleFields sty)).get "textAlignHorizontal") =
      condPart (sty.get "textAlignHorizontal").isString "textAlignHorizontal"
        (sty.get "textAlignHorizontal") := by
    rw [hgetTA]
    by_cases hc : (sty.get "textAlignHorizontal").isString = true
    · simp [hc]
    · simp [hc, condPart, show JSValue.isString JSValue.undefined = false from rfl]
  have e6 : lineHeightPart (.obj (styleFields sty)) = lineHeightPart sty := by
    have hgetLH : (JSValue.obj (styleFields sty)).get "lineHeight" =
        (if (sty.get "lineHeight").isNumber then some (sty.get "lineHeight")
         else if ((sty.get "lineHeight").get "value").truthy
                && ((sty.get "lineHeight").get "value").isNumber
         then some ((sty.get "lineHeight").get "value") else none).getD .undefined := by
      show ((styleFields sty).lookup "lineHeight").getD .undefined = _
      rw [sf_lookup_lineHeight]
    unfold lineHeightPart
    rw [hgetLH]
    by_cases h6a : (sty.get "lineHeight").isNumber = true
    · simp [h6a]
    · by_cases h6b : (((sty.get "lineHeight").get "value").truthy
          && ((sty.get "lineHeight").get "value").isNumber) = true
      · have h6c : ((sty.get "lineHeight").get "value").truthy = true ∧
            ((sty.get "lineHeight").get "value").isNumber = true := by
          simpa using h6b
        simp [h6a, h6b, h6c.1, h6c.2]
      · simp [h6a, h6b, show JSValue.isNumber JSValue.undefined = false from rfl,
          show JSValue.get JSValue.undefined "value" = JSValue.undefined from rfl,
          show JSValue.truthy JSValue.undefined = false from rfl]
  have e7 : fillsPart (.obj (styleFields sty)) = fillsPart sty := by
    by_cases hex : ∃ fills, sty.get "fills" = JSValue.arr fills
    · obtain ⟨fills, hf⟩ := hex
      have hget7 : (JSValue.obj (styleFields sty)).get "fills" =
          (if (fills.filterMap transformFill).isEmpty then none
           else some (.arr (fills.filterMap transformFill))).getD .undefined := by
        show ((styleFields sty).lookup "fills").getD .undefined = _
        rw [sf_lookup_fills_arr hf]
      by_cases hk : (fills.filterMap transformFill).isEmpty = true
      · have hku : (JSValue.obj (styleFields sty)).get "fills" = .undefined := by
          rw [hget7, if_pos hk]
          rfl
        rw [fillsPart_not_arr (by rw [hku]; intro fs h2; cases h2), fillsPart_arr hf,
          if_pos hk]
      · have hka : (JSValue.obj (styleFields sty)).get "fills" =
            .arr (fills.filterMap transformFill) := by
          rw [hget7, if_neg hk]
          rfl
        have hidem : ∀ g ∈ fills.filterMap transformFill, transformFill g = some g := by
          intro g hg
          obtain ⟨f0, _, hf0⟩ := List.mem_filterMap.mp hg
          exact transformFill_idem hf0
        rw [fillsPart_arr hka, fillsPart_arr hf, filterMap_id_of_forall hidem]
    · push_neg at hex
      have hku : (JSValue.obj (styleFields sty)).get "fills" = .undefined := by
        show ((styleFields sty).lookup "fills").getD .undefined = _
        rw [sf_lookup_fills_not_arr hex]
        rfl
      rw [fillsPart_not_arr (by rw [hku]; intro fs h2; cases h2), fillsPart_not_arr hex]
  rw [styleFields_def (.obj (styleFields sty)), e1, e2, e3, e4, e5, e6, e7,
    ← styleFields_def sty]

theorem transformStyle_idem {sty s : JSValue} (h : transformStyle sty = some s) :
    transformStyle s = some s := by
  obtain ⟨h1, h2, h3, rfl⟩ := transformStyle_some_inv h
  have e := transformStyle_eq_some
    (show (JSValue.obj (styleFields sty)).truthy = true from rfl)
    (show (JSValue.obj (styleFields sty)).isObjLike = true from rfl)
    (by rw [styleFields_idem]; exact h3)
  rw [e, styleFields_idem]

theorem nodeFields_def (node : JSValue) :
    nodeFields node =
      [("id", node.get "id"), ("name", node.get "name"), ("type", node.get "type")]
      ++ bboxFields (node.get "absoluteBoundingBox")
      ++ stylePart node
      ++ charsPart node := rfl

theorem eqStr_true_iff (w : JSValue) (t : String) : w.eqStr t = true ↔ w = .str t := by
  cases w <;> simp [JSValue.eqStr]

theorem nodeFields_idem (v : JSValue) (kids : List (String × JSValue))
    (hkids : kids = [] ∨ ∃ w, kids = [("children", w)]) :
    nodeFields (.obj (nodeFields v ++ kids)) = nodeFields v := by
  have hid : (JSValue.obj (nodeFields v ++ kids)).get "id" = v.get "id" := by
    rw [get_transform_output v kids hkids _ (by decide), nf_lookup_id]
    rfl
  have hname : (JSValue.obj (nodeFields v ++ kids)).get "name" = v.get "name" := by
    rw [get_transform_output v kids hkids _ (by decide), nf_lookup_name]
    rfl
  have htype : (JSValue.obj (nodeFields v ++ kids)).get "type" = v.get "type" := by
    rw [get_transform_output v kids hkids _ (by decide), nf_lookup_type]
    rfl
  have hbbget : (JSValue.obj (nodeFields v ++ kids)).get "absoluteBoundingBox" =
      ((bboxFields (v.get "absoluteBoundingBox")).lookup "absoluteBoundingBox").getD
        .undefined := by
    rw [get_transform_output v kids hkids _ (by decide), nf_lookup_bbox]
  have hstyget : (JSValue.obj (nodeFields v ++ kids)).get "style" =
      (transformStyle (v.get "style")).getD .undefined := by
    rw [get_transform_output v kids hkids _ (by decide), nf_lookup_style]
  have hchget : (JSValue.obj (nodeFields v ++ kids)).get "characters" =
      ((charsPart v).lookup "characters").getD .undefined := by
    rw [get_transform_output v kids hkids _ (by decide), nf_lookup_chars]
  have ebb : bboxFields ((JSValue.obj (nodeFields v ++ kids)).get "absoluteBoundingBox") =
      bboxFields (v.get "absoluteBoundingBox") := by
    rcases bboxFields_cases (v.get "absoluteBoundingBox") with
      ⟨x, y, w, hh, htr, hx, hy, hw, hht, hbb⟩ | ⟨hbb, _⟩
    · have hval : (JSValue.obj (nodeFields v ++ kids)).get "absoluteBoundingBox" =
          .obj [("x", .num x), ("y", .num y), ("width", .num w), ("height", .num hh)] := by
        rw [hbbget, hbb]
        simp [List.lookup]
      rw [hval, hbb]
      rfl
    · have hval : (JSValue.obj (nodeFields v ++ kids)).get "absoluteBoundingBox" =
          .undefined := by
        rw [hbbget, hbb]
        rfl
      rw [hval, hbb]
      rfl
  have esty : stylePart (JSValue.obj (nodeFields v ++ kids)) = stylePart v := by
    unfold stylePart
    cases hs : transformStyle (v.get "style") with
    | some s =>
      have hval : (JSValue.obj (nodeFields v ++ kids)).get "style" = s := by
        rw [hstyget, hs]
        rfl
      rw [hval, transformStyle_idem hs]
    | none =>
      have hval : (JSValue.obj (nodeFields v ++ kids)).get "style" = .undefined := by
        rw [hstyget, hs]
        rfl
      rw [hval]
      rfl
  have echars : charsPart (JSValue.obj (nodeFields v ++ kids)) = charsPart v := by
    unfold charsPart
    rw [htype]
    by_cases ht : (v.get "type").eqStr "TEXT" = true
    · rw [if_pos ht, if_pos ht]
      have htv : v.get "type" = .str "TEXT" := (eqStr_true_iff _ _).mp ht
      cases hcv : v.get "characters" with
      | str s =>
        have hcp : charsPart v = [("characters", .str (summarizeText s))] :=
          charsPart_text htv hcv
        have hval : (JSValue.obj (nodeFields v ++ kids)).get "characters" =
            .str (summarizeText s) := by
          rw [hchget, hcp]
          simp [List.lookup]
        rw [hval]
        simp [summarizeText_idem]
      | null =>
        have hcp : charsPart v = [] := by
          unfold charsPart
          rw [if_pos ht, hcv]
        have hval : (JSValue.obj (nodeFields v ++ kids)).get "characters" = .undefined := by
          rw [hchget, hcp]
          rfl
        rw [hval]
      | undefined =>
        have hcp : charsPart v = [] := by
          unfold charsPart
          rw [if_pos ht, hcv]
        have hval : (JSValue.obj (nodeFields v ++ kids)).get "characters" = .undefined := by
          rw [hchget, hcp]
          rfl
        rw [hval]
      | bool b =>
        have hcp : charsPart v = [] := by
          unfold charsPart
          rw [if_pos ht, hcv]
        have hval : (JSValue.obj (nodeFields v ++ kids)).get "characters" = .undefined := by
          rw [hchget, hcp]
          rfl
        rw [hval]
      | num x =>
        have hcp : charsPart v = [] := by
          unfold charsPart
          rw [if_pos ht, hcv]
        have hval : (JSValue.obj (nodeFields v ++ kids)).get "characters" = .undefined := by
          rw [hchget, hcp]
          rfl
        rw [hval]
      | arr es =>
        have hcp : charsPart v = [] := by
          unfold charsPart
          rw [if_pos ht, hcv]
        have hval : (JSValue.obj (nodeFields v ++ kids)).get "characters" = .undefined := by
          rw [hchget, hcp]
          rfl
        rw [hval]
      | obj fs =>
        have hcp : charsPart v = [] := by
          unfold charsPart
          rw [if_pos ht, hcv]
        have hval : (JSValue.obj (nodeFields v ++ kids)).get "characters" = .undefined := by
          rw [hchget, hcp]
          rfl
        rw [hval]
    · rw [if_neg ht, if_neg ht]
  rw [nodeFields_def (JSValue.obj (nodeFields v ++ kids)), hid, hname, htype, ebb, esty,
    echars, ← nodeFields_def v]

/-- C4: `transformFigmaNode` is idempotent on already-minimal shapes —
re-running the normalizer on any of its own outputs (the `MinimalNode`
reinterpreted as a raw node) returns that output unchanged: no new
fields appear and no data is lost. -/
theorem claim_C4_normalize_idempotent {v m : JSValue} (h : transformFigmaNode v = some m) :
    transformFigmaNode m = some m := by
  suffices H : ∀ n, ∀ v m : JSValue, jsSize v ≤ n → transformFigmaNode v = some m →
      transformFigmaNode m = some m from H (jsSize v) v m (Nat.le_refl _) h
  intro n
  induction n with
  | zero =>
    intro v m hn _
    have := jsSize_pos v
    omega
  | succ n2 ih =>
    intro v m hn h
    rcases tfn_some_inv h with ⟨cs, ts, hch, hts, rfl⟩ | ⟨hnc, rfl⟩
    · obtain ⟨fs, rfl⟩ : ∃ fs, v = .obj fs := by
        cases v <;> simp [JSValue.get] at hch
        exact ⟨_, rfl⟩
      have hmch : (JSValue.obj (nodeFields (JSValue.obj fs) ++
          [("children", JSValue.arr ts)])).get "children" = .arr ts := by
        show ((nodeFields (JSValue.obj fs) ++ [("children", JSValue.arr ts)]).lookup
          "children").getD .undefined = _
        rw [lookup_append, nf_lookup_children, Option.none_or]
        simp [List.lookup]
      rw [tfn_obj_children hmch]
      have hts2 : optMap transformFigmaNode ts = some ts := by
        apply optMap_id_of_forall
        intro t ht
        obtain ⟨c, hc, hfc⟩ := optMap_mem hts ht
        have hb := jsSize_child_bound hch hc
        exact ih c t (by omega) hfc
      rw [hts2]
      simp only [Option.map]
      rw [nodeFields_idem (JSValue.obj fs) _ (Or.inr ⟨_, rfl⟩)]
    · have hmch : ∀ cs, (JSValue.obj (nodeFields v)).get "children" ≠ .arr cs := by
        intro cs hcs
        have h2 : ((nodeFields v).lookup "children").getD .undefined = JSValue.arr cs := hcs
        rw [nf_lookup_children] at h2
        simp at h2
      rw [tfn_obj_no_children hmch]
      have he := nodeFields_idem v [] (Or.inl rfl)
      rw [List.append_nil] at he
      rw [he]

/-- Witness for C4: normalizing an already-minimal `TEXT` node returns
it unchanged. -/
theorem claim_C4_normalize_idempotent_witness :
    transformFigmaNode (.obj [("id", .str "1"), ("name", .str "T"), ("type", .str "TEXT"),
        ("characters", .str "hi")]) =
      some (.obj [("id", .str "1"), ("name", .str "T"), ("type", .str "TEXT"),
        ("characters", .str "hi")]) :=
  @claim_C4_normalize_idempotent
    (.obj [("id", .str "1"), ("name", .str "T"), ("type", .str "TEXT"),
      ("characters", .str "hi")])
    (.obj [("id", .str "1"), ("name", .str "T"), ("type", .str "TEXT"),
      ("characters", .str "hi")])
    (by rfl)
